import Mathlib

/-!
# Verification of the owl-bot code-propagation engine

Shallow embedding of the core of the `owl-bot` code-propagation engine:

* the Node `path` (POSIX) primitives `basename`, `dirname`, `normalize`,
  `join` that the engine uses,
* the `minimatch` pattern matcher (with the `matchBase: true` option, the
  only configuration the engine uses),
* `makePatternMatchAllSubdirs` / `newMinimatchFromSource` (pattern-match.ts),
* `stripPrefix`, `trimSlashes`, the clear phase of `copyDirs`, `copyCode`
  and `copyExists` (copy-code.ts, final revision),
* the commit-history scanner `scanGoogleapisGenAndCreatePullRequests`
  (scan-googleapis-gen-and-create-pull-requests.ts / copy-new-code.ts),
* `FirestoreConfigsStore.storeConfigs` and
  `FirestoreConfigsStore.recordPullRequestForUpdatingLock`
  (firestore-configs-store.ts), with the Firestore document store modelled
  as an association list and a transaction modelled as an atomic step.

JavaScript strings are modelled as Lean `String`; machine-level details
(UTF-16 vs. codepoints) play no role for the ASCII data involved.
-/

namespace OwlBot

/-! ## Node `path` (POSIX) model

Faithful to Node's `lib/path.js` POSIX implementations, restricted to the
separator `'/'`. -/

/-- JavaScript `s.endsWith(suffix)`. -/
def strEndsWith (s suffix : String) : Bool :=
  suffix.data.isSuffixOf s.data

/-- Drop the trailing run of `'/'` characters (Node's `matchedSlash` skip). -/
def dropTrailingSlashes (cs : List Char) : List Char :=
  (cs.reverse.dropWhile (· = '/')).reverse

/-- The characters after the last `'/'` (the whole list when it has none). -/
def afterLastSlash (cs : List Char) : List Char :=
  (cs.reverse.takeWhile (· ≠ '/')).reverse

/-- The characters before the last `'/'`, or `none` when there is no `'/'`. -/
def beforeLastSlash (cs : List Char) : Option (List Char) :=
  match cs.reverse.dropWhile (· ≠ '/') with
  | [] => none
  | _ :: rest => some rest.reverse

/-- Node `path.posix.basename`: drop trailing slashes, then take everything
after the last remaining slash.  `basename "" = ""`, `basename "/" = ""`. -/
def basename (s : String) : String :=
  ⟨afterLastSlash (dropTrailingSlashes s.data)⟩

/-- Node `path.posix.dirname`.  The scan looks only at indices `≥ 1`, ignores
the trailing slash run, and returns `'.'` / `'/'` when no qualifying slash is
found; the special `"//"` result mirrors Node's `hasRoot && end === 1` case. -/
def dirname (s : String) : String :=
  match s.data with
  | [] => "."
  | c0 :: rest =>
    match beforeLastSlash (dropTrailingSlashes rest) with
    | none => if c0 = '/' then "/" else "."
    | some before =>
      if c0 = '/' && before.isEmpty then "//" else ⟨c0 :: before⟩

/-- Split on single `'/'` characters, like JavaScript `s.split('/')`. -/
def splitSingleAux : List Char → List Char → List String
  | [], cur => [⟨cur.reverse⟩]
  | '/' :: rest, cur => ⟨cur.reverse⟩ :: splitSingleAux rest []
  | c :: rest, cur => splitSingleAux rest (c :: cur)

def splitSingle (s : String) : List String :=
  splitSingleAux s.data []

/-- One step of Node's `normalizeString`: resolve a path segment against the
stack of segments kept so far.  `""` and `"."` are dropped; `".."` pops unless
the stack is empty or ends in `".."`, in which case it is kept only for
relative paths (`allowAboveRoot`). -/
def normalizeSegsStep (allowAboveRoot : Bool) (acc : List String) (seg : String) :
    List String :=
  if seg = "" || seg = "." then acc
  else if seg = ".." then
    match acc.getLast? with
    | some last =>
      if last ≠ ".." then acc.dropLast
      else if allowAboveRoot then acc ++ [".."] else acc
    | none => if allowAboveRoot then acc ++ [".."] else acc
  else acc ++ [seg]

/-- Node `path.posix.normalize`. -/
def normalize (s : String) : String :=
  if s = "" then "."
  else
    let abs := s.data.head? = some '/'
    let trailing := s.data.getLast? = some '/'
    let segs := (splitSingle s).foldl (normalizeSegsStep (!abs)) []
    let core := String.intercalate "/" segs
    if core = "" then
      if abs then "/" else if trailing then "./" else "."
    else
      let core := if trailing then core ++ "/" else core
      if abs then "/" ++ core else core

/-- Node `path.posix.join`: drop empty parts, join with `'/'`, `"."` when
nothing remains, otherwise normalize. -/
def joinList (parts : List String) : String :=
  let joined := String.intercalate "/" (parts.filter (· ≠ ""))
  if joined = "" then "." else normalize joined

/-! ## minimatch model

Model of `minimatch` 3.x as used by the engine: no braces, extglobs,
character classes or negation occur in any pattern the engine builds, so a
compiled pattern segment is either the globstar `**`, a literal string, or a
character-wise glob over `*` / `?`.  Both the pattern and the matched string
are split on runs of slashes (minimatch's `slashSplit = /\/+/`).  The engine
always passes `{matchBase: true}`, which is hard-wired here. -/

inductive GlobChar where
  | star : GlobChar
  | qmark : GlobChar
  | lit : Char → GlobChar
deriving DecidableEq, Repr

inductive MmSeg where
  | globstar : MmSeg
  | exact : String → MmSeg
  | magic : List GlobChar → MmSeg
deriving DecidableEq, Repr

/-- Split on runs of `'/'`, like JavaScript `s.split(/\/+/)`: an empty part
can only arise from a leading or a trailing slash run; in between, runs
collapse. -/
def splitRuns (s : String) : List String :=
  if s = "" then [""]
  else
    let lead := if s.data.head? = some '/' then [""] else []
    let trail := if s.data.getLast? = some '/' then [""] else []
    lead ++ ((splitSingle s).filter (· ≠ "")) ++ trail

/-- Compile one pattern segment. -/
def compileSeg (s : String) : MmSeg :=
  if s = "**" then .globstar
  else if s.data.any (fun c => c = '*' || c = '?') then
    .magic (s.data.map fun c =>
      if c = '*' then .star else if c = '?' then .qmark else .lit c)
  else .exact s

/-- All suffixes of a character list, longest first (what `*` may skip). -/
def suffixesIncl : List Char → List (List Char)
  | [] => [[]]
  | c :: cs => (c :: cs) :: suffixesIncl cs

/-- Character-wise glob matching of a magic segment body: `*` consumes any
run of characters (none of them can be `'/'`, but a split segment contains
no separator anyway), `?` exactly one. -/
def globChars : List GlobChar → List Char → Bool
  | [], [] => true
  | [], _ :: _ => false
  | .star :: ps, cs => (suffixesIncl cs).any (fun s => globChars ps s)
  | .qmark :: ps, _ :: cs => globChars ps cs
  | .qmark :: _, [] => false
  | .lit a :: ps, c :: cs => a = c && globChars ps cs
  | .lit _ :: _, [] => false

/-- A magic segment never matches the empty part (minimatch's `(?=.)`) and,
without the `dot` option, never matches a part starting with `'.'` unless the
pattern segment itself starts with a literal `'.'`. -/
def magicMatch (gp : List GlobChar) (f : String) : Bool :=
  match f.data with
  | [] => false
  | c :: _ =>
    if c = '.' && (match gp with | .lit '.' :: _ => false | _ => true) then false
    else globChars gp f.data

/-- minimatch's dot-segment test used by globstar: `'.'`, `'..'`, or a leading
dot (the `dot` option is never set by the engine). -/
def isDotSeg (f : String) : Bool :=
  f = "." || f = ".." || f.data.head? = some '.'

/-- Hit test for a non-globstar pattern segment (`===` for plain strings,
regex for magic segments). -/
def segHit : MmSeg → String → Bool
  | .globstar, _ => false
  | .exact s, f => f = s
  | .magic gp, f => magicMatch gp f

/-- The suffixes the globstar swallow loop tries, in order: one per starting
position, stopping after (and including) a dot segment. -/
def swallowCandidates : List String → List (List String)
  | [] => []
  | g :: gs => (g :: gs) :: (if isDotSeg g then [] else swallowCandidates gs)

/-- minimatch's `matchOne` (with `partial = false`): consume one pattern
segment per file segment; a globstar swallows zero or more non-dot segments
(the swallow loop tries the rest of the pattern at every candidate suffix);
when the pattern is exhausted the file may keep exactly one empty segment
(trailing slash); when the file is exhausted with pattern left, no match. -/
def matchOne : List String → List MmSeg → Bool
  | [], [] => true
  | [f], [] => f = ""
  | _ :: _ :: _, [] => false
  | [], _ :: _ => false
  | f :: fs, [.globstar] => (f :: fs).all (fun x => !isDotSeg x)
  | f :: fs, .globstar :: p :: ps =>
    (swallowCandidates (f :: fs)).any (fun cand => matchOne cand (p :: ps))
  | f :: fs, p :: ps => segHit p f && matchOne fs ps

/-- JavaScript `s.trim()` (whitespace from both ends). -/
def strTrim (s : String) : String :=
  ⟨((s.data.dropWhile (·.isWhitespace)).reverse.dropWhile (·.isWhitespace)).reverse⟩

/-- `new Minimatch(pattern, {matchBase: true}).match(file)`.  The constructor
trims the pattern; an empty pattern matches only the empty string; with
`matchBase`, a slash-free pattern is matched against the last nonempty file
segment. -/
def mmMatch (pattern file : String) : Bool :=
  let pattern := strTrim pattern
  if pattern = "" then file = ""
  else
    let patSegs := (splitRuns pattern).map compileSeg
    let f := splitRuns file
    let filename := match f.reverse.find? (· ≠ "") with
      | some x => x
      | none => f.headD ""
    let file' := if patSegs.length = 1 then [filename] else f
    matchOne file' patSegs

/-! ## pattern-match.ts -/

/-- `makePatternMatchAllSubdirs` (pattern-match.ts): make sure the pattern
always ends with `/**`. -/
def makePatternMatchAllSubdirs (pattern : String) : String :=
  if strEndsWith pattern "/**" then pattern
  else if strEndsWith pattern "/*" then pattern ++ "*"
  else if strEndsWith pattern "/" then pattern ++ "**"
  else pattern ++ "/**"

/-- The match predicate of `newMinimatchFromSource` (pattern-match.ts):
`new Minimatch(makePatternMatchAllSubdirs(pattern), {matchBase: true})`. -/
def newMinimatchFromSourceMatch (pattern candidate : String) : Bool :=
  mmMatch (makePatternMatchAllSubdirs pattern) candidate

/-! ## copy-code.ts: trimSlashes and stripPrefix -/

/-- `trimSlashes` (copy-code.ts): normalize, then remove a leading and a
trailing separator if present (`apath.slice(start, end > start ? end : start)`). -/
def trimSlashes (apath0 : String) : String :=
  let apath := normalize apath0
  let cs := apath.data
  let start := if cs.head? = some '/' then 1 else 0
  let stop := if cs.getLast? = some '/' then cs.length - 1 else cs.length
  ⟨(cs.take (if stop > start then stop else start)).drop start⟩

/-- The `while (true)` loop of `stripPrefix` (copy-code.ts), fuel-indexed.
Each iteration pushes `basename filePath` onto the collected segments and
exits when the parent directory matches the prefix pattern, is empty, is the
separator, or equals the current path; otherwise it continues with the
parent.  `none` means the fuel ran out before the loop exited (never happens
for fuel `≥ filePath.length + 3`, see `stripSegsFuel_isSome`). -/
def stripSegsFuel : Nat → String → String → List String → Option (List String)
  | 0, _, _, _ => none
  | n + 1, pattern, filePath, acc =>
    let dirName := dirname filePath
    let fileName := basename filePath
    let acc := acc ++ [fileName]
    if mmMatch pattern dirName || dirName = "" || dirName = "/" || dirName = filePath
    then some acc
    else stripSegsFuel n pattern dirName acc

/-- `stripPrefix` (copy-code.ts, final revision): trim slashes from the
pattern (`prefix ?? ''`) and the file path; on a complete match return the
basename; otherwise walk from the leaf toward the root collecting segments,
reverse them, and join. -/
def stripPrefix (p : Option String) (filePath0 : String) : String :=
  let pattern := trimSlashes (p.getD "")
  let filePath := trimSlashes filePath0
  if mmMatch pattern filePath then basename filePath
  else
    let segs := (stripSegsFuel (filePath.length + 3) pattern filePath []).getD []
    joinList segs.reverse

/-! ## Configuration records

The repository's `config-files.ts` module is not part of the sources here
(only its importers are); the record shapes below are reconstructed from
every field access the sources make (`copyDir.source`, `copyDir.dest`,
`copyDir['strip-prefix']`, `configs.commithash`, `lock.docker.image`,
`lock.docker.digest`) and from the spec's data model (§3). -/

structure CopyDir where
  source : String
  dest : String
  stripPrefixPat : Option String := none
deriving DecidableEq, Repr

structure OwlBotYaml where
  copyDirs : Option (List CopyDir) := none
deriving DecidableEq, Repr

structure OwlBotLockDocker where
  image : String
  digest : String
deriving DecidableEq, Repr

structure OwlBotLock where
  docker : OwlBotLockDocker
deriving DecidableEq, Repr

/-- `Configs` (configs-store.ts): the stored per-repo record. -/
structure Configs where
  lock : Option OwlBotLock := none
  yaml : Option OwlBotYaml := none
  commithash : String
deriving DecidableEq, Repr

/-! ## The commit-history scanner
(scan-googleapis-gen-and-create-pull-requests.ts, also copy-new-code.ts —
the two revisions have the identical todo-stack loop)

The git plumbing (`git log`, `getFilesModifiedBySha`) and
`configsStore.findReposAffectedByFileChanges` are external collaborators; a
scanned history is therefore given to the loop as a list of
`(commitHash, affected repos)` pairs, newest first, and the boolean that
`copyExists` would *resolve* to is given as a pure function. -/

structure Todo where
  repo : String
  commitHash : String
deriving DecidableEq, Repr

/-- JavaScript truthiness of the value actually tested by the scanner.
The source reads `if (!copyExists(octokit, repo, commitHash, logger))`:
`copyExists` is an `async` function and the call is **not awaited**, so the
negated value is a pending `Promise` object.  Every object is truthy in
JavaScript, so the test negates `true` regardless of the boolean the promise
later resolves to. -/
def promiseIsTruthy : Bool := true

/-- The inner `for (const repo of repos)` loop of the scanner, as written:
push `{repo, commitHash}` when `!copyExists(...)` — which negates the
un-awaited promise (see `promiseIsTruthy`). -/
def scanPushTodos (commitHash : String) (repos : List String)
    (todoStack : List Todo) : List Todo :=
  repos.foldl
    (fun stack repo =>
      if !promiseIsTruthy then stack ++ [⟨repo, commitHash⟩] else stack)
    todoStack

/-- The same inner loop under the spec's reading (§4.5 step 3): the dedup
check's *resolved* boolean decides the push, i.e. the code with the missing
`await` added. -/
def scanPushTodosSpec (copyExistsResolved : String → String → Bool)
    (commitHash : String) (repos : List String)
    (todoStack : List Todo) : List Todo :=
  repos.foldl
    (fun stack repo =>
      if !(copyExistsResolved repo commitHash) then stack ++ [⟨repo, commitHash⟩]
      else stack)
    todoStack

/-- The commit-history loop of `scanGoogleapisGenAndCreatePullRequests`:
remember the stack size, run the inner push loop, and stop as soon as a
commit affected at least one repo but pushed nothing. -/
def scanLoop : List (String × List String) → List Todo → List Todo
  | [], todoStack => todoStack
  | (commitHash, repos) :: rest, todoStack =>
    let stackSize := todoStack.length
    let stack' := scanPushTodos commitHash repos todoStack
    if repos.length > 0 && stack'.length = stackSize then stack'
    else scanLoop rest stack'

/-- The scanner's final queue: the todo stack reversed (oldest first). -/
def scanTodoQueue (commits : List (String × List String)) : List Todo :=
  (scanLoop commits []).reverse

/-- `scanLoop` under the spec's reading (awaited dedup check). -/
def scanLoopSpec (copyExistsResolved : String → String → Bool) :
    List (String × List String) → List Todo → List Todo
  | [], todoStack => todoStack
  | (commitHash, repos) :: rest, todoStack =>
    let stackSize := todoStack.length
    let stack' := scanPushTodosSpec copyExistsResolved commitHash repos todoStack
    if repos.length > 0 && stack'.length = stackSize then stack'
    else scanLoopSpec copyExistsResolved rest stack'

/-- The scanner's queue under the spec's reading. -/
def scanTodoQueueSpec (copyExistsResolved : String → String → Bool)
    (commits : List (String × List String)) : List Todo :=
  (scanLoopSpec copyExistsResolved commits []).reverse

/-! ## FirestoreConfigsStore.storeConfigs (firestore-configs-store.ts)

The Firestore collection is modelled as an association list from document id
(repo name) to `Configs`; `runTransaction` is an atomic step (Firestore
serializes conflicting transactions).  `Transaction.update(docRef, configs)`
replaces the data of an **existing** document; on a nonexistent document its
existence precondition fails, the transaction rejects with NOT_FOUND, and
the awaited `runTransaction` throws out of `storeConfigs` — modelled as
`none`. -/

abbrev YamlsCollection := List (String × Configs)

/-- Read a document (the repo's stored `Configs`, or `undefined`). -/
def docGet : YamlsCollection → String → Option Configs
  | [], _ => none
  | (k, v) :: db, repo => if k = repo then some v else docGet db repo

/-- Replace an existing document's data (the successful case of
`t.update(docRef, configs)`; `storeConfigs` only reaches it when the
document exists). -/
def docSet : YamlsCollection → String → Configs → YamlsCollection
  | [], repo, c => [(repo, c)]
  | (k, v) :: db, repo, c =>
    if k = repo then (repo, c) :: db else (k, v) :: docSet db repo c

/-- The update condition of `storeConfigs`:
`(prevConfigs && prevConfigs.commithash === replaceCommithash) ||
 (!prevConfigs && replaceCommithash === null)`.
`replaceCommithash : Option String` models `string | null`; in JavaScript a
string never `===`-equals `null`, hence the four cases below. -/
def casGuard (prevConfigs : Option Configs) (replaceCommithash : Option String) : Bool :=
  match prevConfigs, replaceCommithash with
  | some prev, some r => prev.commithash = r
  | some _, none => false
  | none, some _ => false
  | none, none => true

/-- The transaction body of `storeConfigs`: read the document, test the
guard, and on success run `t.update(docRef, configs)` and set
`updatedDoc = true`.  When the guard passes on an **existing** document the
update replaces it and `storeConfigs` returns `true`; when the guard passes
with **no** document (only possible with the null sentinel),
`Transaction.update`'s existence precondition fails, the transaction
rejects with NOT_FOUND and the awaited call throws — nothing is stored and
no boolean is returned (`none`).  When the guard fails, nothing is written
and `false` is returned. -/
def storeConfigs (db : YamlsCollection) (repo : String) (configs : Configs)
    (replaceCommithash : Option String) : Option (YamlsCollection × Bool) :=
  if casGuard (docGet db repo) replaceCommithash then
    match docGet db repo with
    | some _ => some (docSet db repo configs, true)
    | none => none
  else some (db, false)

/-- The spec's success condition for `storeConfig` (§4.6): "the currently
stored record's commit hash equals `expectedPriorCommitHash` (or no record
exists and `expectedPriorCommitHash` is the sentinel none)". -/
def specCasOk (prev : Option Configs) (replaceCommithash : Option String) : Prop :=
  (∃ p, prev = some p ∧ replaceCommithash = some p.commithash) ∨
    (prev = none ∧ replaceCommithash = none)

/-! ## FirestoreConfigsStore.recordPullRequestForUpdatingLock -/

/-- `makeUpdateLockKey` (firestore-configs-store.ts):
`[repo, lock.docker.image, lock.docker.digest].join('⁘')`. -/
def makeUpdateLockKey (repo : String) (lock : OwlBotLock) : String :=
  String.intercalate "⁘" [repo, lock.docker.image, lock.docker.digest]

/-- The lock-update collection: document key → stored `pullRequestId`. -/
abbrev LockUpdateCollection := List (String × String)

def lockGet : LockUpdateCollection → String → Option String
  | [], _ => none
  | (k, v) :: db, key => if k = key then some v else lockGet db key

def lockSet : LockUpdateCollection → String → String → LockUpdateCollection
  | [], key, v => [(key, v)]
  | (k, w) :: db, key, v =>
    if k = key then (key, v) :: db else (k, w) :: lockSet db key v

/-- Faithful embedding of the transaction body of
`recordPullRequestForUpdatingLock` (firestore-configs-store.ts):

```
const got = await t.get(docRef);
if (got.exists) {
  t.set(docRef, data);
} else {
  pullRequestId = (got.data() as UpdateLockPr).pullRequestId;
}
return pullRequestId;
```

When the document exists, the stored id is overwritten with the caller's
`data` and the caller's id is returned.  When it does not exist,
`got.data()` is `undefined` and reading `.pullRequestId` from it throws a
`TypeError`, aborting the transaction — modelled as `none`. -/
def recordPullRequestForUpdatingLock (db : LockUpdateCollection) (repo : String)
    (lock : OwlBotLock) (pullRequestId : String) :
    Option (LockUpdateCollection × String) :=
  let key := makeUpdateLockKey repo lock
  match lockGet db key with
  | some _ => some (lockSet db key pullRequestId, pullRequestId)
  | none => none

/-! ## copyDirs, clear phase (copy-code.ts, final revision)

The destination checkout is modelled as the list of its existing paths,
directories included, relative to the process working directory (so paths
start with the `destDir` component, as the source's `path.join(destDir, …)`
produces).  `glob.sync(killPattern)` filters those paths with the minimatch
predicate, which agrees with glob for the literal and single-`*` basename
patterns the clear phase builds.  `fs.rmSync(p, {recursive: true})` removes
`p` and everything below it; the `stat` guard is Firestore-free existence. -/

abbrev FileSys := List String

def statExists (fs : FileSys) (p : String) : Bool := fs.contains p

def rmRecursive (fs : FileSys) (p : String) : FileSys :=
  fs.filter (fun q => !(q = p || (p ++ "/").data.isPrefixOf q.data))

def globSync (fs : FileSys) (pattern : String) : List String :=
  fs.filter (fun q => mmMatch pattern q)

/-- The clear phase of `copyDirs` (copy-code.ts, final revision), verbatim:

```
let deadPaths: string[] = [];
for (const copyDir of yaml['copy-dirs'] ?? []) {
  if (trimSlashes(copyDir.dest) === '') {
    const killPattern = path.join(destDir, path.basename(copyDir.source));
    deadPaths = glob.sync(killPattern);
  } else {
    deadPaths = [path.join(destDir, copyDir.dest)];
  }
}
for (const deadPath of deadPaths) {
  if (stat(deadPath)) { fs.rmSync(deadPath, {recursive: true}); }
}
```

Note the loop **assigns** `deadPaths` on every iteration (the accumulator
passed to `foldl` is discarded), exactly as the source does.  Returns the
final `deadPaths` and the file system after the deletion loop. -/
def copyDirsClearPhase (destDir : String) (yaml : OwlBotYaml) (fs : FileSys) :
    List String × FileSys :=
  let deadPaths : List String :=
    (yaml.copyDirs.getD []).foldl
      (fun _deadPaths copyDir =>
        if trimSlashes copyDir.dest = "" then
          globSync fs (joinList [destDir, basename copyDir.source])
        else
          [joinList [destDir, copyDir.dest]])
      []
  let fs' := deadPaths.foldl
    (fun fs deadPath => if statExists fs deadPath then rmRecursive fs deadPath else fs)
    fs
  (deadPaths, fs')

/-! ## copyExists (copy-code.ts, final revision)

The GitHub responses are external inputs: the commit-search `total_count`,
the issue-and-PR-search `items`, and the first pages (`per_page: 100`) of
`pulls.list` and `issues.list`, each item carrying its optional body. -/

structure SearchItem where
  number : Nat
deriving DecidableEq, Repr

structure ListedItem where
  number : Nat
  body : Option String
deriving DecidableEq, Repr

structure GithubSearchView where
  commitSearchTotalCount : Nat
  issueSearchItems : List SearchItem
  pullsList : List ListedItem
  issuesList : List ListedItem
deriving DecidableEq, Repr

/-- JavaScript `haystack.indexOf(needle) >= 0` (substring occurrence). -/
def containsSub (hay needle : List Char) : Bool :=
  (List.range (hay.length + 1)).any (fun i => needle.isPrefixOf (hay.drop i))

/-- `body?.indexOf(sourceCommitHash) ?? -1 >= 0`. -/
def bodyHasHash (body : Option String) (sourceCommitHash : String) : Bool :=
  match body with
  | some b => containsSub b.data sourceCommitHash.data
  | none => false

/-- `copyExists` (copy-code.ts, final revision): (a) commit search
(`total_count > 0`), (b) issue-and-PR search (the loop returns `true` on the
first item), (c) direct enumeration of the listed pull requests and then the
listed issues, substring-searching each body for the hash; `false` only when
everything came up empty. -/
def copyExists (gh : GithubSearchView) (sourceCommitHash : String) : Bool :=
  if gh.commitSearchTotalCount > 0 then true
  else if !gh.issueSearchItems.isEmpty then true
  else if gh.pullsList.any (fun pull => bodyHasHash pull.body sourceCommitHash) then true
  else gh.issuesList.any (fun issue => bodyHasHash issue.body sourceCommitHash)

/-- Spec tier (a): "search destination repo commits for the hash string". -/
def tierCommitSearch (gh : GithubSearchView) : Bool :=
  gh.commitSearchTotalCount > 0

/-- Spec tier (b): "search destination repo issues+PRs for the hash string". -/
def tierIssueAndPrSearch (gh : GithubSearchView) : Bool :=
  !gh.issueSearchItems.isEmpty

/-- Spec tier (c): "directly enumerate the most recent N pull requests and N
issues and substring-search their bodies for the hash". -/
def tierDirectEnumeration (gh : GithubSearchView) (sourceCommitHash : String) : Bool :=
  gh.pullsList.any (fun pull => bodyHasHash pull.body sourceCommitHash) ||
    gh.issuesList.any (fun issue => bodyHasHash issue.body sourceCommitHash)

/-! ## copyCode (copy-code.ts, final revision)

The git operations and the yaml file read/parse are external collaborators:
the run is determined by the first dedup check, the outcome of
`readFileAsync` + `load` + `owlBotYamlFrom` (`Except` models the `try`
block), and the second dedup check.  The observable effects are the issues
created, whether `copyDirs` ran (and with which yaml), and whether a pull
request was created. -/

/-- Path of the per-repo configuration file.  The constant lives in the
`config-files.ts` module, which is not among the sources; its exact value is
irrelevant to the claims. -/
def owlBotYamlPath : String := ".github/.OwlBot.yaml"

structure CopyCodeWorld where
  copyExistsBefore : Bool
  yamlLoad : Except String OwlBotYaml
  copyExistsAfter : Bool
deriving Repr

structure CopyCodeRun where
  issueTitles : List String
  copiedYaml : Option OwlBotYaml
  pullCreated : Bool
deriving DecidableEq, Repr

/-- `copyCode` (copy-code.ts, final revision), at the level of its
observable effects.  Every branch returns a value: in particular the
`catch` branch logs, calls `octokit.issues.create({... title: `${owlBotYamlPath}
is missing or defective` ...})` and returns ("Success because we don't want
to retry"), so a configuration defect never propagates an exception. -/
def copyCode (w : CopyCodeWorld) : CopyCodeRun :=
  if w.copyExistsBefore then ⟨[], none, false⟩
  else
    match w.yamlLoad with
    | .error _ => ⟨[owlBotYamlPath ++ " is missing or defective"], none, false⟩
    | .ok yaml =>
      if w.copyExistsAfter then ⟨[], some yaml, false⟩
      else ⟨[], some yaml, true⟩

/-- The queue-application loop: each todo's `copyCodeAndCreatePullRequest`
is awaited in sequence; since `copyCode` returns normally on every input,
every queued item is processed. -/
def applyTodos (ws : List CopyCodeWorld) : List CopyCodeRun :=
  ws.map copyCode

/-- Termination measure for the `stripPrefix` walk: `"."` is its own parent
(the loop exits there at once); every other path is left with two spare
steps for the detour through `"."`. -/
def dirMeasure (s : String) : Nat :=
  if s = "." then 0 else s.length + 2

/-!
# Theorems

Helper lemmas first, then one theorem per claim (with its witness or
counterexample where required).
-/

theorem dropWhile_head_not {α : Type} {p : α → Bool} :
    ∀ {l : List α} {a : α} {t : List α}, l.dropWhile p = a :: t → p a = false := by
  intro l
  induction l with
  | nil => intro a t h; simp [List.dropWhile] at h
  | cons c l ih =>
    intro a t h
    rw [List.dropWhile_cons] at h
    by_cases hc : p c
    · rw [if_pos hc] at h; exact ih h
    · rw [if_neg hc] at h
      cases h
      simpa using hc

theorem dropTrailingSlashes_length_le (cs : List Char) :
    (dropTrailingSlashes cs).length ≤ cs.length := by
  unfold dropTrailingSlashes
  simpa using (List.dropWhile_suffix (l := cs.reverse) (· = '/')).length_le

theorem beforeLastSlash_some_length {cs b : List Char}
    (h : beforeLastSlash cs = some b) : b.length < cs.length := by
  unfold beforeLastSlash at h
  rcases hd : cs.reverse.dropWhile (· ≠ '/') with _ | ⟨x, rest⟩ <;> rw [hd] at h
  · exact absurd h (by simp)
  · have hlen : (x :: rest).length ≤ cs.length := by
      have := (List.dropWhile_suffix (l := cs.reverse) (· ≠ '/')).length_le
      rw [hd] at this
      simpa using this
    have hb : b = rest.reverse := (Option.some.inj h).symm
    subst hb
    simp at hlen ⊢
    omega

theorem beforeLastSlash_dropTrailing_nil {cs : List Char}
    (h : beforeLastSlash (dropTrailingSlashes cs) = some []) : 2 ≤ cs.length := by
  unfold beforeLastSlash at h
  rcases hd : (dropTrailingSlashes cs).reverse.dropWhile (· ≠ '/') with _ | ⟨x, rest⟩ <;>
    rw [hd] at h
  · exact absurd h (by simp)
  · have hrest : rest = [] := by
      have : rest.reverse = [] := Option.some.inj h
      simpa using this
    subst hrest
    have hx : x = '/' := by
      have := dropWhile_head_not hd
      simpa using this
    subst hx
    -- the reversed trimmed path decomposes as takeWhile ++ ['/']
    have hsplit : (dropTrailingSlashes cs).reverse.takeWhile (· ≠ '/') ++ ['/']
        = (dropTrailingSlashes cs).reverse := by
      conv_rhs => rw [← List.takeWhile_append_dropWhile (p := (· ≠ '/'))
        (l := (dropTrailingSlashes cs).reverse)]
      rw [hd]
    -- the trimmed path never ends in a slash, so the takeWhile part is nonempty
    have hne : (dropTrailingSlashes cs).reverse.takeWhile (· ≠ '/') ≠ [] := by
      intro hnil
      rw [hnil, List.nil_append] at hsplit
      have hrev : (dropTrailingSlashes cs).reverse = cs.reverse.dropWhile (· = '/') := by
        unfold dropTrailingSlashes
        simp
      rw [hrev] at hsplit
      have := dropWhile_head_not (l := cs.reverse) (p := (· = '/')) hsplit.symm
      simp at this
    have h2 : 2 ≤ (dropTrailingSlashes cs).reverse.length := by
      rw [← hsplit]
      rcases hT : (dropTrailingSlashes cs).reverse.takeWhile (· ≠ '/') with _ | ⟨y, ys⟩
      · exact absurd hT hne
      · simp
    calc 2 ≤ (dropTrailingSlashes cs).reverse.length := h2
    _ = (dropTrailingSlashes cs).length := by simp
    _ ≤ cs.length := dropTrailingSlashes_length_le cs

/-- The parent of a path is the path itself, `"."`, or strictly shorter. -/
theorem dirname_cases (s : String) :
    dirname s = s ∨ dirname s = "." ∨ (dirname s).length < s.length := by
  obtain ⟨cs⟩ := s
  rcases cs with _ | ⟨c0, rest⟩
  · right; left; rfl
  · have hred : dirname ⟨c0 :: rest⟩ =
        (match beforeLastSlash (dropTrailingSlashes rest) with
         | none => if c0 = '/' then "/" else "."
         | some before =>
           if c0 = '/' && before.isEmpty then "//" else ⟨c0 :: before⟩) := rfl
    rcases hb : beforeLastSlash (dropTrailingSlashes rest) with _ | before <;>
      rw [hb] at hred
    · by_cases hc : c0 = '/'
      · subst hc
        rw [hred, if_pos rfl]
        rcases rest with _ | ⟨r, rs⟩
        · left; rfl
        · right; right
          show ("/" : String).data.length < ('/' :: r :: rs).length
          simp
      · rw [hred, if_neg hc]
        right; left; rfl
    · replace hred : dirname ⟨c0 :: rest⟩ =
          if c0 = '/' && before.isEmpty then "//" else ⟨c0 :: before⟩ := by
        rw [hred]
      by_cases hif : (c0 = '/' && before.isEmpty) = true
      · rw [hred, if_pos hif]
        right; right
        have he : before = [] := by
          have := (Bool.and_eq_true _ _).mp hif
          simpa using this.2
        subst he
        have h2 := beforeLastSlash_dropTrailing_nil hb
        show ("//" : String).data.length < (c0 :: rest).length
        simp only [List.length_cons, List.length_nil]
        omega
      · rw [hred, if_neg hif]
        right; right
        have h1 : before.length < (dropTrailingSlashes rest).length :=
          beforeLastSlash_some_length hb
        have h2 := dropTrailingSlashes_length_le rest
        show (c0 :: before).length < (c0 :: rest).length
        simp only [List.length_cons]
        omega

theorem dirMeasure_dirname_lt {s : String} (h : dirname s ≠ s) :
    dirMeasure (dirname s) < dirMeasure s := by
  have hdot : s ≠ "." := by
    intro hs
    exact h (by rw [hs]; rfl)
  rcases dirname_cases s with h1 | h1 | h1
  · exact absurd h1 h
  · rw [h1]
    unfold dirMeasure
    simp [hdot]
  · unfold dirMeasure
    rw [if_neg hdot]
    by_cases hd : dirname s = "."
    · rw [if_pos hd]; omega
    · rw [if_neg hd]; omega

/-- With fuel exceeding the measure, the `stripPrefix` walk reaches one of
its exits. -/
theorem stripSegsFuel_isSome_of_lt :
    ∀ (n : Nat) (pattern s : String) (acc : List String), dirMeasure s < n →
      (stripSegsFuel n pattern s acc).isSome = true := by
  intro n
  induction n with
  | zero =>
    intro pattern s acc h
    exact absurd h (by omega)
  | succ n ih =>
    intro pattern s acc h
    rw [stripSegsFuel]
    split
    · rfl
    · rename_i hcond
      have hne : dirname s ≠ s := by
        intro he
        exact hcond (by simp [he])
      have hlt := dirMeasure_dirname_lt hne
      exact ih pattern (dirname s) _ (by omega)

theorem docGet_docSet_self (db : YamlsCollection) (repo : String) (c : Configs) :
    docGet (docSet db repo c) repo = some c := by
  induction db with
  | nil => simp [docSet, docGet]
  | cons kv db ih =>
    obtain ⟨k, v⟩ := kv
    by_cases hk : k = repo
    · simp [docSet, hk, docGet]
    · simp [docSet, hk, docGet, ih]

theorem casGuard_iff (prev : Option Configs) (replace : Option String) :
    casGuard prev replace = true ↔ specCasOk prev replace := by
  rcases prev with _ | p <;> rcases replace with _ | r <;>
    simp [casGuard, specCasOk, eq_comm]

/-!
## Claim theorems
-/

/-- **C1** (code bug): during the commit-history scan the source tests
`!copyExists(octokit, repo, commitHash, logger)` without awaiting the
`async` call, so the test negates a truthy `Promise` object and never
pushes — even on a commit whose single affected repo has (per the resolved
dedup check) no propagation yet.  Under the spec's reading (awaited check),
the same history yields the `Todo` the claim demands. -/
theorem scanTodoQueue_unawaited_push_bug :
    scanTodoQueue [("h1", ["r1"])] = []
      ∧ scanTodoQueueSpec (fun _ _ => false) [("h1", ["r1"])]
          = [⟨"r1", "h1"⟩] := by
  constructor <;> rfl

/-- **C2** (code bug): with a two-commit history — newest commit `h2` not
yet propagated for its affected repo `r1`, oldest commit `h1` fully
propagated — the claim demands the queue `[⟨r1, h2⟩]`.  Because of the
un-awaited dedup check the scan breaks on the very first affecting commit
with an empty stack, so the code's queue is empty; the spec's reading
produces exactly the claimed queue. -/
theorem scanTodoQueue_early_stop_bug :
    scanTodoQueue [("h2", ["r1"]), ("h1", ["r1"])] = []
      ∧ scanTodoQueueSpec (fun _ hash => hash == "h1")
          [("h2", ["r1"]), ("h1", ["r1"])] = [⟨"r1", "h2"⟩] := by
  constructor <;> rfl

/-- **C3 counterexample**: the claim fails at two explicit inputs.
First, with no stored record and the null sentinel, `storeConfigs` does not
return `true` and insert — the guard passes but `t.update` hits a missing
document, the transaction rejects and the call throws (`none`), storing
nothing.  Second, two compare-and-swap writes with the same expected prior
hash `"X"` can *both* succeed: the first write stores a record whose commit
hash is again `"X"`, leaving the store in exactly the state
`[("r", ⟨…,"X"⟩)]` that the second write (on the winner's resulting state)
then finds, so both return `true` — refuting "exactly one succeeds". -/
theorem storeConfigs_claim_counterexample :
    storeConfigs ([] : YamlsCollection) "r" ⟨none, none, "X"⟩ none = none
      ∧ storeConfigs [("r", ⟨none, none, "X"⟩)] "r" ⟨none, none, "X"⟩ (some "X")
          = some ([("r", ⟨none, none, "X"⟩)], true)
      ∧ storeConfigs [("r", ⟨none, none, "X"⟩)] "r" ⟨none, none, "Z"⟩ (some "X")
          = some ([("r", ⟨none, none, "Z"⟩)], true) :=
  ⟨rfl, rfl, rfl⟩

/-- **C3** (amended): `storeConfigs` returns `true` and durably replaces
the stored record iff a record is currently stored and its commit hash
equals `expectedPriorCommitHash`; when no record exists and the expected
hash is the null sentinel, the guard passes but the transactional update
rejects on the missing document, so the call throws and stores nothing; in
every other case it returns `false` and leaves the collection unchanged.
Consequently, of two compare-and-swap writes with the same expected prior
hash, if the first succeeds and its new record carries a commit hash
different from the expected prior hash, the second returns `false` and
changes nothing — exactly one succeeds. -/
theorem storeConfigs_cas_correct :
    (∀ (db : YamlsCollection) (repo : String) (configs : Configs)
        (replace : Option String),
        (storeConfigs db repo configs replace
            = some (docSet db repo configs, true)
          ↔ ∃ p, docGet db repo = some p ∧ replace = some p.commithash)
          ∧ (∀ db' : YamlsCollection,
              storeConfigs db repo configs replace = some (db', true) →
              docGet db' repo = some configs)
          ∧ (docGet db repo = none → replace = none →
              storeConfigs db repo configs replace = none)
          ∧ (¬ specCasOk (docGet db repo) replace →
              storeConfigs db repo configs replace = some (db, false)))
      ∧ (∀ (db db' : YamlsCollection) (repo : String) (c₁ c₂ : Configs)
          (r : String),
          c₁.commithash ≠ r →
          storeConfigs db repo c₁ (some r) = some (db', true) →
          storeConfigs db' repo c₂ (some r) = some (db', false)) := by
  -- evaluation equations for the five shapes of (stored document, expected hash)
  have hres_some_true : ∀ (db : YamlsCollection) (repo : String) (configs p : Configs)
      (r : String), docGet db repo = some p → p.commithash = r →
      storeConfigs db repo configs (some r) = some (docSet db repo configs, true) := by
    intro db repo configs p r hget hpr
    unfold storeConfigs
    rw [hget]
    have hg : casGuard (some p) (some r) = true := by simp [casGuard, hpr]
    rw [hg]
    simp
  have hres_some_false : ∀ (db : YamlsCollection) (repo : String) (configs p : Configs)
      (r : String), docGet db repo = some p → p.commithash ≠ r →
      storeConfigs db repo configs (some r) = some (db, false) := by
    intro db repo configs p r hget hpr
    unfold storeConfigs
    rw [hget]
    have hg : casGuard (some p) (some r) = false := by simp [casGuard, hpr]
    rw [hg]
    simp
  have hres_some_none : ∀ (db : YamlsCollection) (repo : String) (configs p : Configs),
      docGet db repo = some p → storeConfigs db repo configs none = some (db, false) := by
    intro db repo configs p hget
    unfold storeConfigs
    rw [hget]
    simp [casGuard]
  have hres_none_some : ∀ (db : YamlsCollection) (repo : String) (configs : Configs)
      (r : String), docGet db repo = none →
      storeConfigs db repo configs (some r) = some (db, false) := by
    intro db repo configs r hget
    unfold storeConfigs
    rw [hget]
    simp [casGuard]
  have hres_none_none : ∀ (db : YamlsCollection) (repo : String) (configs : Configs),
      docGet db repo = none → storeConfigs db repo configs none = none := by
    intro db repo configs hget
    unfold storeConfigs
    rw [hget]
    simp [casGuard]
  constructor
  · intro db repo configs replace
    refine ⟨⟨?_, ?_⟩, ?_, ?_, ?_⟩
    · intro h
      rcases hget : docGet db repo with _ | p
      · rcases replace with _ | r
        · rw [hres_none_none db repo configs hget] at h
          simp at h
        · rw [hres_none_some db repo configs r hget] at h
          simp at h
      · rcases replace with _ | r
        · rw [hres_some_none db repo configs p hget] at h
          simp at h
        · by_cases hpr : p.commithash = r
          · exact ⟨p, rfl, by rw [hpr]⟩
          · rw [hres_some_false db repo configs p r hget hpr] at h
            simp at h
    · rintro ⟨p, hget, hrep⟩
      subst hrep
      exact hres_some_true db repo configs p p.commithash hget rfl
    · intro db' h
      rcases hget : docGet db repo with _ | p
      · rcases replace with _ | r
        · rw [hres_none_none db repo configs hget] at h
          simp at h
        · rw [hres_none_some db repo configs r hget] at h
          simp at h
      · rcases replace with _ | r
        · rw [hres_some_none db repo configs p hget] at h
          simp at h
        · by_cases hpr : p.commithash = r
          · rw [hres_some_true db repo configs p r hget hpr] at h
            have hdb : docSet db repo configs = db' :=
              congrArg Prod.fst (Option.some.inj h)
            rw [← hdb]
            exact docGet_docSet_self db repo configs
          · rw [hres_some_false db repo configs p r hget hpr] at h
            simp at h
    · intro hget hrep
      subst hrep
      exact hres_none_none db repo configs hget
    · intro hnot
      rcases hget : docGet db repo with _ | p
      · rcases replace with _ | r
        · exact absurd (Or.inr ⟨hget, rfl⟩) hnot
        · exact hres_none_some db repo configs r hget
      · rcases replace with _ | r
        · exact hres_some_none db repo configs p hget
        · by_cases hpr : p.commithash = r
          · exact absurd (Or.inl ⟨p, hget, by rw [hpr]⟩) hnot
          · exact hres_some_false db repo configs p r hget hpr
  · intro db db' repo c₁ c₂ r hne h1
    have hres_some_true : ∀ (p : Configs), docGet db repo = some p → p.commithash = r →
        storeConfigs db repo c₁ (some r) = some (docSet db repo c₁, true) := by
      intro p hget hpr
      unfold storeConfigs
      rw [hget]
      have hg : casGuard (some p) (some r) = true := by simp [casGuard, hpr]
      rw [hg]
      simp
    have hres_fail : ∀ (db₀ : YamlsCollection) (c : Configs),
        (∀ p, docGet db₀ repo = some p → p.commithash ≠ r) →
        storeConfigs db₀ repo c (some r) = some (db₀, false) ∨
          storeConfigs db₀ repo c (some r) = none := by
      intro db₀ c hno
      unfold storeConfigs
      rcases hget : docGet db₀ repo with _ | p
      · left
        simp [casGuard]
      · left
        have hg : casGuard (some p) (some r) = false := by
          simp [casGuard, hno p hget]
        rw [hg]
        simp
    rcases hget : docGet db repo with _ | p
    · rcases hres_fail db c₁ (fun p hp => absurd (hget ▸ hp) (by simp)) with hf | hf <;>
        rw [hf] at h1 <;> simp at h1
    · by_cases hpr : p.commithash = r
      · rw [hres_some_true p hget hpr] at h1
        have hdb : docSet db repo c₁ = db' := congrArg Prod.fst (Option.some.inj h1)
        have hget' : docGet db' repo = some c₁ := by
          rw [← hdb]
          exact docGet_docSet_self db repo c₁
        unfold storeConfigs
        rw [hget']
        have hg : casGuard (some c₁) (some r) = false := by simp [casGuard, hne]
        rw [hg]
        simp
      · have hf : storeConfigs db repo c₁ (some r) = some (db, false) := by
          unfold storeConfigs
          rw [hget]
          have hg : casGuard (some p) (some r) = false := by simp [casGuard, hpr]
          rw [hg]
          simp
        rw [hf] at h1
        simp at h1

/-- **C3 witness**: a concrete pair of CAS writes with expected prior
`"X"`, the first storing hash `"Y" ≠ "X"`: given the first succeeded, the
second returns `false` on the winner's state, unchanged. -/
theorem storeConfigs_cas_correct_witness :
    storeConfigs [("r", ⟨none, none, "Y"⟩)] "r" ⟨none, none, "Z"⟩ (some "X")
      = some ([("r", ⟨none, none, "Y"⟩)], false) :=
  storeConfigs_cas_correct.2 [("r", ⟨none, none, "X"⟩)] [("r", ⟨none, none, "Y"⟩)]
    "r" ⟨none, none, "Y"⟩ ⟨none, none, "Z"⟩ "X" (by decide) (by decide)

/-- **C4** (code bug): the transaction in
`recordPullRequestForUpdatingLock` tests `got.exists` the wrong way round.
Evaluating the embedding: when a pull request `pr-winner` is already
recorded for the `(repo, image, digest)` triple, a second call with
`pr-loser` *overwrites* the stored id and returns `pr-loser` (the claim —
and the interface's own documentation — require the stored id to stay and
be returned); when no record exists, the call crashes (`got.data()` is
`undefined`) instead of storing the caller's id. -/
theorem recordPullRequestForUpdatingLock_inverted_eval :
    recordPullRequestForUpdatingLock
        [(makeUpdateLockKey "googleapis/repo" ⟨⟨"img", "dig"⟩⟩, "pr-winner")]
        "googleapis/repo" ⟨⟨"img", "dig"⟩⟩ "pr-loser"
      = some ([(makeUpdateLockKey "googleapis/repo" ⟨⟨"img", "dig"⟩⟩, "pr-loser")],
          "pr-loser")
      ∧ recordPullRequestForUpdatingLock [] "googleapis/repo" ⟨⟨"img", "dig"⟩⟩ "pr-1"
          = none := by
  constructor <;> rfl

/-- **C5** (code bug): the clear phase *assigns* `deadPaths` on every rule
instead of accumulating, so only the last rule's destination is wiped.
With two rules (`dest /x` and `dest /y`), the stale content under the first
rule's destination `dest/x` survives the clear phase, contradicting "this
holds for every rule in the list".  The second conjunct shows the part of
the claim that does hold for the (last) rule: a root rule deletes only the
entries matching its source's basename, and `dest/README.md` survives. -/
theorem copyDirsClearPhase_only_last_rule_eval :
    copyDirsClearPhase "dest" ⟨some [⟨"/a", "/x", none⟩, ⟨"/b", "/y", none⟩]⟩
        ["dest", "dest/x", "dest/x/stale.txt", "dest/y", "dest/y/old.txt",
          "dest/README.md"]
      = (["dest/y"], ["dest", "dest/x", "dest/x/stale.txt", "dest/README.md"])
      ∧ copyDirsClearPhase "dest" ⟨some [⟨"/g/grpc-foo-java", "/", none⟩]⟩
          ["dest", "dest/README.md", "dest/grpc-foo-java", "dest/grpc-foo-java/old.txt"]
        = (["dest/grpc-foo-java"], ["dest", "dest/README.md"]) := by
  constructor <;> rfl

/-- **C6**: `copyExists` equals the disjunction of the three tiers in their
fixed order — commit search, issue-and-PR search, direct enumeration of the
listed pull requests and issues with a substring search of their bodies —
and in particular returns `true` when tiers (a) and (b) are empty but a
listed pull-request body contains the hash, and `false` when all three
tiers find nothing. -/
theorem copyExists_three_tier_characterization :
    (∀ (gh : GithubSearchView) (sourceCommitHash : String),
        copyExists gh sourceCommitHash
          = (tierCommitSearch gh || tierIssueAndPrSearch gh
              || tierDirectEnumeration gh sourceCommitHash))
      ∧ copyExists ⟨0, [], [⟨7, some "copied abc123 here"⟩], []⟩ "abc123" = true
      ∧ copyExists ⟨0, [], [⟨7, some "nothing"⟩], [⟨8, none⟩]⟩ "abc123" = false := by
  refine ⟨?_, by decide, by decide⟩
  intro gh hash
  unfold copyExists tierCommitSearch tierIssueAndPrSearch tierDirectEnumeration
  by_cases h1 : gh.commitSearchTotalCount > 0 <;>
    cases h2 : gh.issueSearchItems.isEmpty <;>
    cases h3 : gh.pullsList.any (fun pull => bodyHasHash pull.body hash) <;>
    simp [h1, h2, h3]

/-- **C7**: the `stripPrefix` contracts.  The complete-match case holds for
every input: whenever the slash-trimmed file path matches the slash-trimmed
prefix pattern, the result is the basename.  The remaining cases at the
spec's contract inputs: a matching proper ancestor leaves the segments
below it; an absent/empty/separator prefix and a mismatched prefix both
degrade to the full relative path — and, the function being total, no input
throws. -/
theorem stripPrefix_contracts :
    (∀ (p : Option String) (filePath : String),
        mmMatch (trimSlashes (p.getD "")) (trimSlashes filePath) = true →
        stripPrefix p filePath = basename (trimSlashes filePath))
      ∧ stripPrefix (some "/a/*/c") "/a/b/c/d/e" = "d/e"
      ∧ stripPrefix (some "/a/*/c") "/a/b/c" = "c"
      ∧ stripPrefix none "/a/b/c/d/e" = "a/b/c/d/e"
      ∧ stripPrefix (some "") "/a/b/c/d/e" = "a/b/c/d/e"
      ∧ stripPrefix (some "/") "/a/b/c/d/e" = "a/b/c/d/e"
      ∧ stripPrefix (some "/b/c") "/a/b/c/d/e" = "a/b/c/d/e" := by
  refine ⟨?_, rfl, rfl, rfl, rfl, rfl, rfl⟩
  intro p filePath h
  unfold stripPrefix
  simp [h]

/-- **C7 witness**: the complete-match case applied at the spec's own
complete-match input. -/
theorem stripPrefix_contracts_witness :
    stripPrefix (some "/a/*/c") "/a/b/c" = basename (trimSlashes "/a/b/c") :=
  stripPrefix_contracts.1 (some "/a/*/c") "/a/b/c" (by decide)

/-- **C8**: the normalization rule is the exhaustive four-case rule, all
four trailing-segment variants of `/a/*/b` normalize to the very same
pattern `/a/*/b/**`, and under `newMinimatchFromSource`'s matcher each
variant matches `/a/x/b/y` and `/a/x/b/y/z/q` and does not match
`/a/b/c`. -/
theorem makePatternMatchAllSubdirs_normalization_equiv :
    (∀ pat : String, strEndsWith pat "/**" = true →
        makePatternMatchAllSubdirs pat = pat)
      ∧ (∀ pat : String, strEndsWith pat "/**" = false →
          strEndsWith pat "/*" = true → makePatternMatchAllSubdirs pat = pat ++ "*")
      ∧ (∀ pat : String, strEndsWith pat "/**" = false →
          strEndsWith pat "/*" = false → strEndsWith pat "/" = true →
          makePatternMatchAllSubdirs pat = pat ++ "**")
      ∧ (∀ pat : String, strEndsWith pat "/**" = false →
          strEndsWith pat "/*" = false → strEndsWith pat "/" = false →
          makePatternMatchAllSubdirs pat = pat ++ "/**")
      ∧ (makePatternMatchAllSubdirs "/a/*/b" = "/a/*/b/**"
          ∧ makePatternMatchAllSubdirs "/a/*/b/" = "/a/*/b/**"
          ∧ makePatternMatchAllSubdirs "/a/*/b/*" = "/a/*/b/**"
          ∧ makePatternMatchAllSubdirs "/a/*/b/**" = "/a/*/b/**")
      ∧ (["/a/*/b", "/a/*/b/", "/a/*/b/*", "/a/*/b/**"].all fun pat =>
          newMinimatchFromSourceMatch pat "/a/x/b/y"
            && newMinimatchFromSourceMatch pat "/a/x/b/y/z/q"
            && !newMinimatchFromSourceMatch pat "/a/b/c") = true := by
  refine ⟨?_, ?_, ?_, ?_, ⟨rfl, rfl, rfl, rfl⟩, by decide⟩
  · intro pat h1
    simp [makePatternMatchAllSubdirs, h1]
  · intro pat h1 h2
    simp [makePatternMatchAllSubdirs, h1, h2]
  · intro pat h1 h2 h3
    simp [makePatternMatchAllSubdirs, h1, h2, h3]
  · intro pat h1 h2 h3
    simp [makePatternMatchAllSubdirs, h1, h2, h3]

/-- **C8 witness**: the second normalization case applied at `/a/*/b/*`. -/
theorem makePatternMatchAllSubdirs_normalization_equiv_witness :
    makePatternMatchAllSubdirs "/a/*/b/*" = "/a/*/b/*" ++ "*" :=
  makePatternMatchAllSubdirs_normalization_equiv.2.1 "/a/*/b/*" (by decide) (by decide)

/-- **C9**: when the destination's OwlBot.yaml is missing or unparseable
(and the run got past the initial dedup check), `copyCode` opens exactly
the defect issue, runs no copy, creates no pull request, and returns
normally — being a total function of its world — so surrounding queued
repos are still processed: applying a queue containing the defective repo
processes every other item exactly as it would alone. -/
theorem copyCode_config_defect_nonfatal (w : CopyCodeWorld) (e : String)
    (h1 : w.copyExistsBefore = false) (h2 : w.yamlLoad = .error e) :
    copyCode w = ⟨[owlBotYamlPath ++ " is missing or defective"], none, false⟩
      ∧ ∀ ws₁ ws₂ : List CopyCodeWorld,
          applyTodos (ws₁ ++ w :: ws₂)
            = applyTodos ws₁ ++ copyCode w :: applyTodos ws₂ := by
  constructor
  · simp [copyCode, h1, h2]
  · intro ws₁ ws₂
    simp [applyTodos]

/-- **C9 witness**: a concrete defective world. -/
theorem copyCode_config_defect_nonfatal_witness :
    copyCode ⟨false, .error "ENOENT", false⟩
      = ⟨[owlBotYamlPath ++ " is missing or defective"], none, false⟩ :=
  (copyCode_config_defect_nonfatal ⟨false, .error "ENOENT", false⟩ "ENOENT" rfl rfl).1

/-- **C10 counterexample**: at `filePath = "a"` (with the empty pattern,
e.g. from prefix `"/"`), the loop iteration neither exits through any break
guard — the parent `"."` does not match, is not empty, is not the
separator, and differs from `"a"` — nor strictly shortens the path
(`"."` has the same length as `"a"`), refuting the claim's per-iteration
case analysis. -/
theorem stripPrefix_loop_step_neither_breaks_nor_shortens :
    mmMatch "" (dirname "a") = false ∧ dirname "a" ≠ "" ∧ dirname "a" ≠ "/"
      ∧ dirname "a" ≠ "a" ∧ ¬((dirname "a").length < "a".length) := by
  decide

/-- **C10** (amended): each iteration of the `stripPrefix` loop either
exits through a break guard, or strictly shortens the path, or replaces it
by `"."` — whose parent equals itself, so the next iteration exits; hence
the loop terminates on every input: fuel `filePath.length + 3` (the bound
the embedding uses) always suffices to reach an exit. -/
theorem stripPrefix_loop_terminates :
    (∀ filePath : String,
        dirname filePath = filePath ∨ dirname filePath = "."
          ∨ (dirname filePath).length < filePath.length)
      ∧ ∀ (pattern filePath : String) (acc : List String),
          (stripSegsFuel (filePath.length + 3) pattern filePath acc).isSome = true := by
  refine ⟨dirname_cases, ?_⟩
  intro pattern filePath acc
  apply stripSegsFuel_isSome_of_lt
  unfold dirMeasure
  by_cases h : filePath = "."
  · simp [h]
  · simp [h]

end OwlBot
